import Mathlib

/-!
# Verification of the csi-debugger secret store and its HTTP/gRPC surfaces

Shallow embedding of `main.go` of the csi-debugger repository:

* `Secret`, `MemoryStore` — the in-memory secret store (`map[string]Secret`
  guarded by a `sync.RWMutex`).  The Go map is modelled as an association
  list of `Secret` records keyed by `name`; Go map iteration order is
  unspecified, so the list order stands for one arbitrary iteration order,
  and map assignment `s.secrets[name] = sec` is modelled as removing any
  record with that key and appending the new record.
* `MemoryStore.set`, `MemoryStore.delete`, `MemoryStore.list`,
  `MemoryStore.getFiles` — the store's four methods.
* `mount` — `ProviderServer.Mount`, which ignores the request and returns
  `GetFiles()` of the store.
* `handleUpdate`, `handleDelete`, `handleBulk` — the three mutating HTTP
  admin handlers.  `r.ParseForm`'s possible failure is a boolean parameter,
  the form is a total function `String → String` (Go's `FormValue` returns
  `""` for a missing field), and `json.Unmarshal` (Go standard library, not
  repository code) is abstracted as an `Option (List BulkItem)` input:
  `none` is a parse failure, `some items` a successful parse of the array.
-/

/-- One secret record (`type Secret struct` in main.go).  `Mode` is an
`int32` in Go; it is only ever stored and returned, never computed with,
so it is modelled as `Int`. -/
structure Secret where
  name : String
  value : String
  version : String
  mode : Int
deriving Repr, DecidableEq

/-- The store's contents: the Go `map[string]Secret` as an association list
of records keyed by `name` (list order = one arbitrary map iteration
order). -/
abbrev MemoryStore := List Secret

namespace MemoryStore

/-- `MemoryStore.Set` (main.go:56-65): `s.secrets[name] = Secret{...}`.
Map assignment replaces any existing record for `name` with the new one. -/
def set (st : MemoryStore) (name value version : String) (mode : Int) :
    MemoryStore :=
  st.filter (fun s => s.name ≠ name) ++
    [{ name := name, value := value, version := version, mode := mode }]

/-- `MemoryStore.Delete` (main.go:67-71): `delete(s.secrets, name)`. -/
def delete (st : MemoryStore) (name : String) : MemoryStore :=
  st.filter (fun s => s.name ≠ name)

/-- `MemoryStore.List` (main.go:73-85): collect all records and sort by
`Name` (`sort.Slice` with comparator `list[i].Name < list[j].Name`; since
keys are unique, the output is the unique list sorted by name, which
`mergeSort` with `≤` on names also produces). -/
def list (st : MemoryStore) : List Secret :=
  st.mergeSort (fun a b => a.name ≤ b.name)

/-- `map[string]Secret` lookup: the record stored under key `n`, if any. -/
def find (st : MemoryStore) (n : String) : Option Secret :=
  st.find? (fun s => s.name = n)

/-- Names of distinct records are distinct: the invariant every state
reachable from the empty map satisfies (a Go map has unique keys). -/
abbrev NamesNodup (st : MemoryStore) : Prop :=
  st.Pairwise (fun a b => a.name ≠ b.name)

end MemoryStore

/-- `v1alpha1.File` as used by `GetFiles` (path, mode, contents).
`Contents` is `[]byte(sec.Value)`; bytes are modelled by the string. -/
structure File where
  path : String
  mode : Int
  contents : String
deriving Repr, DecidableEq

/-- `v1alpha1.ObjectVersion` as used by `GetFiles` (id, version). -/
structure ObjectVersion where
  id : String
  version : String
deriving Repr, DecidableEq

/-- The `File` built from one record in `GetFiles`'s loop body. -/
def secretFile (sec : Secret) : File :=
  { path := sec.name, mode := sec.mode, contents := sec.value }

/-- The `ObjectVersion` built from one record in `GetFiles`'s loop body. -/
def secretVersion (sec : Secret) : ObjectVersion :=
  { id := sec.name, version := sec.version }

namespace MemoryStore

/-- `MemoryStore.GetFiles` (main.go:87-106): one pass over the map,
appending to `files` and `versions` in lockstep from the same record. -/
def getFiles (st : MemoryStore) : List File × List ObjectVersion :=
  (st.map secretFile, st.map secretVersion)

end MemoryStore

/-- `v1alpha1.MountRequest`: the fields `Mount` reads (only for logging). -/
structure MountRequest where
  targetPath : String
  attributes : List (String × String)

/-- `v1alpha1.MountResponse`. -/
structure MountResponse where
  files : List File
  objectVersion : List ObjectVersion
deriving Repr, DecidableEq

/-- `ProviderServer.Mount` (main.go:115-129): logs the request, then
returns `store.GetFiles()` — the request's fields never reach the store. -/
def mount (store : MemoryStore) (_req : MountRequest) : MountResponse :=
  let fv := store.getFiles
  { files := fv.1, objectVersion := fv.2 }

/-- Outcome written to the `http.ResponseWriter` by a handler:
`http.Error(rw, msg, status)` or `http.Redirect(rw, r, loc, status)`. -/
inductive HttpResponse where
  | httpError (status : Nat) (msg : String)
  | redirect (status : Nat) (location : String)
deriving Repr, DecidableEq

/-- `WebServer.handleUpdate` (main.go:258-284).  `parseFormOk` abstracts
whether `r.ParseForm()` succeeded; `form` is `r.FormValue`.  The handler
hard-codes `mode := int32(420)` and never reads `form "mode"`. -/
def handleUpdate (st : MemoryStore) (method : String) (parseFormOk : Bool)
    (form : String → String) : MemoryStore × HttpResponse :=
  if method ≠ "POST" then
    (st, .httpError 405 "Method not allowed")
  else if ¬ parseFormOk then
    (st, .httpError 400 "Bad request")
  else
    let name := form "name"
    let value := form "value"
    let version := form "version"
    let mode : Int := 420
    if name = "" ∨ value = "" then
      (st, .httpError 400 "Name and Value required")
    else
      (st.set name value version mode, .redirect 303 "/")

/-- `WebServer.handleDelete` (main.go:286-295): after the method check it
unconditionally calls `w.store.Delete(r.FormValue("name"))` and
redirects — there is no validation of `name`. -/
def handleDelete (st : MemoryStore) (method : String)
    (form : String → String) : MemoryStore × HttpResponse :=
  if method ≠ "POST" then
    (st, .httpError 405 "Method not allowed")
  else
    (st.delete (form "name"), .redirect 303 "/")

/-- One element of the array `json.Unmarshal` parses in `handleBulk`. -/
structure BulkItem where
  name : String
  value : String
  version : String
deriving Repr, DecidableEq

/-- `WebServer.handleBulk` (main.go:297-322).  `parsed` abstracts
`json.Unmarshal([]byte(r.FormValue("json_data")), &items)`: `none` is a
parse error (the handler answers 400 before touching the store), `some
items` the parsed array, each item then applied with `Set(..., 420)` in
order. -/
def handleBulk (st : MemoryStore) (method : String)
    (parsed : Option (List BulkItem)) : MemoryStore × HttpResponse :=
  if method ≠ "POST" then
    (st, .httpError 405 "Method not allowed")
  else
    match parsed with
    | none => (st, .httpError 400 "Invalid JSON")
    | some items =>
        (items.foldl (fun acc i => acc.set i.name i.value i.version 420) st,
         .redirect 303 "/")

/-- A programmatic store operation, for reasoning over arbitrary
sequences of `Set`/`Delete` calls. -/
inductive StoreOp where
  | setOp (name value version : String) (mode : Int)
  | deleteOp (name : String)
deriving Repr, DecidableEq

/-- Apply one operation to the store. -/
def applyOp (st : MemoryStore) : StoreOp → MemoryStore
  | .setOp n v ver m => st.set n v ver m
  | .deleteOp n => st.delete n

/-- Run a sequence of operations from the initially empty store. -/
def runOps (ops : List StoreOp) : MemoryStore :=
  ops.foldl applyOp []

/-- Spec-side description: how one operation updates "the record of the
last `Set` of name `n` not subsequently `Delete`d". -/
def lastWriteStep (n : String) (acc : Option Secret) : StoreOp → Option Secret
  | .setOp name value version mode =>
      if name = n then some ⟨name, value, version, mode⟩ else acc
  | .deleteOp name => if name = n then none else acc

/-- Spec-side description: the record of the last `Set` of name `n` in
`ops` that is not followed by a `Delete` of `n`, if any. -/
def lastWrite (ops : List StoreOp) (n : String) : Option Secret :=
  ops.foldl (lastWriteStep n) none

/-! ## Basic lemmas about the store operations -/

namespace MemoryStore

theorem find?_filter_self (st : List Secret) (n : String) :
    (st.filter (fun s => s.name ≠ n)).find? (fun s => s.name = n) = none :=
  List.find?_eq_none.mpr fun x hx => by
    have h2 := (List.mem_filter.mp hx).2
    simp at h2 ⊢
    exact h2

theorem find?_filter_ne (st : List Secret) (n n' : String) (h : ¬ n' = n) :
    (st.filter (fun s => s.name ≠ n)).find? (fun s => s.name = n') =
      st.find? (fun s => s.name = n') := by
  induction st with
  | nil => rfl
  | cons a st ih =>
      by_cases hx : a.name = n'
      · have hn : a.name ≠ n := fun hc => h (hx.symm.trans hc)
        rw [List.filter_cons_of_pos (by simpa using hn),
            List.find?_cons_of_pos _ (by simpa using hx),
            List.find?_cons_of_pos _ (by simpa using hx)]
      · by_cases hn : a.name = n
        · rw [List.filter_cons_of_neg (by simpa using hn),
              List.find?_cons_of_neg _ (by simpa using hx), ih]
        · rw [List.filter_cons_of_pos (by simpa using hn),
              List.find?_cons_of_neg _ (by simpa using hx),
              List.find?_cons_of_neg _ (by simpa using hx), ih]

theorem find_set (st : MemoryStore) (n v ver : String) (m : Int)
    (n' : String) :
    (st.set n v ver m).find n' =
      if n' = n then some ⟨n, v, ver, m⟩ else st.find n' := by
  simp only [set, find]
  rw [List.find?_append]
  by_cases h : n' = n
  · subst h
    rw [find?_filter_self]
    simp
  · rw [find?_filter_ne st n n' h]
    have h1 : ([(⟨n, v, ver, m⟩ : Secret)]).find? (fun s => s.name = n') = none := by
      simp [Ne.symm h]
    rw [h1, Option.or_none, if_neg h]

theorem find_delete (st : MemoryStore) (n n' : String) :
    (st.delete n).find n' = if n' = n then none else st.find n' := by
  simp only [delete, find]
  by_cases h : n' = n
  · subst h
    rw [find?_filter_self, if_pos rfl]
  · rw [find?_filter_ne st n n' h, if_neg h]

end MemoryStore

theorem find_applyOp (st : MemoryStore) (op : StoreOp) (n : String) :
    (applyOp st op).find n = lastWriteStep n (st.find n) op := by
  cases op with
  | setOp name value version mode =>
      simp only [applyOp, lastWriteStep, MemoryStore.find_set]
      by_cases h : name = n
      · simp [h]
      · simp [h, Ne.symm h]
  | deleteOp name =>
      simp only [applyOp, lastWriteStep, MemoryStore.find_delete]
      by_cases h : name = n
      · simp [h]
      · simp [h, Ne.symm h]

theorem find_foldl_applyOp (ops : List StoreOp) (st : MemoryStore)
    (n : String) :
    (ops.foldl applyOp st).find n = ops.foldl (lastWriteStep n) (st.find n) := by
  induction ops generalizing st with
  | nil => rfl
  | cons op ops ih => rw [List.foldl_cons, List.foldl_cons, ih, find_applyOp]

/-- The store's lookup after running a sequence of operations is exactly
the spec-side "last `Set` not subsequently `Delete`d" record. -/
theorem find_runOps (ops : List StoreOp) (n : String) :
    (runOps ops).find n = lastWrite ops n := by
  rw [runOps, lastWrite, find_foldl_applyOp]
  rfl

namespace MemoryStore

theorem namesNodup_set (st : MemoryStore) (h : NamesNodup st)
    (n v ver : String) (m : Int) : NamesNodup (st.set n v ver m) := by
  rw [set]
  refine List.pairwise_append.mpr
    ⟨h.sublist (List.filter_sublist _), List.pairwise_singleton _ _, ?_⟩
  intro a ha b hb
  have h2 := (List.mem_filter.mp ha).2
  simp at h2
  rcases List.mem_singleton.mp hb with rfl
  simpa using h2

theorem namesNodup_delete (st : MemoryStore) (h : NamesNodup st)
    (n : String) : NamesNodup (st.delete n) :=
  h.sublist (List.filter_sublist _)

end MemoryStore

theorem namesNodup_applyOp (st : MemoryStore) (h : MemoryStore.NamesNodup st)
    (op : StoreOp) : MemoryStore.NamesNodup (applyOp st op) := by
  cases op with
  | setOp n v ver m => exact MemoryStore.namesNodup_set st h n v ver m
  | deleteOp n => exact MemoryStore.namesNodup_delete st h n

/-- Every state reached from the empty store has pairwise-distinct names
(the unique-keys invariant of the Go map). -/
theorem namesNodup_runOps (ops : List StoreOp) :
    MemoryStore.NamesNodup (runOps ops) := by
  rw [runOps]
  have h : ∀ st : MemoryStore, MemoryStore.NamesNodup st →
      MemoryStore.NamesNodup (ops.foldl applyOp st) := by
    induction ops with
    | nil => exact fun st h => h
    | cons op ops ih =>
        intro st h
        exact ih _ (namesNodup_applyOp st h op)
  exact h [] List.Pairwise.nil

namespace MemoryStore

theorem find_of_mem (st : MemoryStore) (h : NamesNodup st) (sec : Secret)
    (hmem : sec ∈ st) : st.find sec.name = some sec := by
  induction st with
  | nil => cases hmem
  | cons a st ih =>
      rcases List.mem_cons.mp hmem with rfl | hmem'
      · rw [find, List.find?_cons_of_pos _ (by simp)]
      · have hcons := List.pairwise_cons.mp h
        have hne : ¬ a.name = sec.name := hcons.1 sec hmem'
        rw [find, List.find?_cons_of_neg _ (by simpa using hne)]
        exact ih hcons.2 hmem'

theorem mem_iff_find (st : MemoryStore) (h : NamesNodup st) (sec : Secret) :
    sec ∈ st ↔ st.find sec.name = some sec :=
  ⟨find_of_mem st h sec,
   fun hf => List.mem_of_find?_eq_some (by simpa [find] using hf)⟩

theorem list_perm (st : MemoryStore) : st.list.Perm st :=
  List.mergeSort_perm st _

theorem mem_list (st : MemoryStore) (sec : Secret) :
    sec ∈ st.list ↔ sec ∈ st :=
  (list_perm st).mem_iff

theorem list_sorted_le (st : MemoryStore) :
    st.list.Pairwise (fun a b => a.name ≤ b.name) := by
  have h := @List.sorted_mergeSort Secret
    (fun a b => a.name ≤ b.name)
    (fun a b c h1 h2 => by
      simp at h1 h2 ⊢
      exact le_trans h1 h2)
    (fun a b => by simpa using le_total a.name b.name)
    st
  exact h.imp (fun hab => by simpa using hab)

theorem list_namesNodup (st : MemoryStore) (h : NamesNodup st) :
    NamesNodup st.list :=
  ((list_perm st).pairwise_iff (fun hab => Ne.symm hab)).mpr h

theorem list_sorted_strict (st : MemoryStore) (h : NamesNodup st) :
    st.list.Pairwise (fun a b => a.name < b.name) :=
  ((list_sorted_le st).and (list_namesNodup st h)).imp
    (fun hab => lt_of_le_of_ne hab.1 hab.2)

end MemoryStore

/-! ## Claim theorems -/

/-- C1: for every finite sequence of `Set`/`Delete` operations applied to
an initially empty `MemoryStore`, `List()` afterwards is sorted strictly
ascending by name, and a record occurs in it exactly when it is the record
of the last `Set` of its name not subsequently `Delete`d (so there is
exactly one record, carrying that last `Set`'s fields, per surviving
name). -/
theorem c1_list_exactly_last_writes (ops : List StoreOp) :
    (runOps ops).list.Pairwise (fun a b => a.name < b.name) ∧
    ∀ sec : Secret,
      sec ∈ (runOps ops).list ↔ lastWrite ops sec.name = some sec := by
  have hnd := namesNodup_runOps ops
  refine ⟨MemoryStore.list_sorted_strict _ hnd, fun sec => ?_⟩
  rw [MemoryStore.mem_list, MemoryStore.mem_iff_find _ hnd, find_runOps]

/-- C3: `Mount` returns exactly the files and object versions that
`GetFiles()` derives from the current store, and its result is the same
for any two attribute maps (the attributes have no influence). -/
theorem c3_mount_ignores_attributes (st : MemoryStore) (p : String)
    (a1 a2 : List (String × String)) :
    mount st ⟨p, a1⟩ = mount st ⟨p, a2⟩ ∧
    (mount st ⟨p, a1⟩).files = (st.getFiles).1 ∧
    (mount st ⟨p, a1⟩).objectVersion = (st.getFiles).2 :=
  ⟨rfl, rfl, rfl⟩

theorem set_set_same (st : MemoryStore) (n v1 ver1 v2 ver2 : String)
    (m1 m2 : Int) :
    (st.set n v1 ver1 m1).set n v2 ver2 m2 = st.set n v2 ver2 m2 := by
  simp [MemoryStore.set]

theorem filter_name_set (st : MemoryStore) (n v ver : String) (m : Int) :
    (st.set n v ver m).filter (fun s => s.name = n) = [⟨n, v, ver, m⟩] := by
  simp [MemoryStore.set, List.filter_append, List.filter_filter]

/-- C4: a second `Set` of the same name fully overwrites the first: the
store is the one produced by the second call alone, its only record named
`n` carries exactly the second call's fields, and `Set` with identical
arguments twice equals `Set` once. -/
theorem c4_set_overwrites (st : MemoryStore) (n v1 ver1 v2 ver2 : String)
    (m1 m2 : Int) :
    (st.set n v1 ver1 m1).set n v2 ver2 m2 = st.set n v2 ver2 m2 ∧
    ((st.set n v1 ver1 m1).set n v2 ver2 m2).filter (fun s => s.name = n) =
      [⟨n, v2, ver2, m2⟩] ∧
    (st.set n v1 ver1 m1).set n v1 ver1 m1 = st.set n v1 ver1 m1 :=
  ⟨set_set_same st n v1 ver1 v2 ver2 m1 m2,
   by rw [set_set_same st n v1 ver1 v2 ver2 m1 m2, filter_name_set],
   set_set_same st n v1 ver1 v1 ver1 m1 m1⟩

theorem namesNodup_map_file (st : MemoryStore)
    (h : MemoryStore.NamesNodup st) : (st.map secretFile).Nodup :=
  List.pairwise_map.mpr (h.imp fun hab hc =>
    hab (congrArg File.path hc))

theorem namesNodup_map_version (st : MemoryStore)
    (h : MemoryStore.NamesNodup st) : (st.map secretVersion).Nodup :=
  List.pairwise_map.mpr (h.imp fun hab hc =>
    hab (congrArg ObjectVersion.id hc))

/-- C2: `GetFiles()` returns two sequences of equal length, aligned
index-by-index on a single record: position `i` of both comes from the
same store record, so the file's path equals the version entry's id, and
every record of the store appears exactly once in each sequence. -/
theorem c2_getFiles_aligned (st : MemoryStore)
    (h : MemoryStore.NamesNodup st) :
    (st.getFiles).1.length = (st.getFiles).2.length ∧
    (∀ i (h1 : i < (st.getFiles).1.length) (h2 : i < (st.getFiles).2.length),
      ((st.getFiles).1.get ⟨i, h1⟩).path = ((st.getFiles).2.get ⟨i, h2⟩).id ∧
      ∃ sec ∈ st, (st.getFiles).1.get ⟨i, h1⟩ = secretFile sec ∧
        (st.getFiles).2.get ⟨i, h2⟩ = secretVersion sec) ∧
    (∀ sec ∈ st, (st.getFiles).1.count (secretFile sec) = 1 ∧
      (st.getFiles).2.count (secretVersion sec) = 1) := by
  refine ⟨by simp [MemoryStore.getFiles], fun i h1 h2 => ?_, fun sec hsec => ?_⟩
  · have hi : i < st.length := by simpa [MemoryStore.getFiles] using h1
    refine ⟨?_, st.get ⟨i, hi⟩, List.get_mem st i hi, ?_, ?_⟩ <;>
      simp [MemoryStore.getFiles, secretFile, secretVersion]
  · exact ⟨List.count_eq_one_of_mem (namesNodup_map_file st h)
        (List.mem_map_of_mem secretFile hsec),
      List.count_eq_one_of_mem (namesNodup_map_version st h)
        (List.mem_map_of_mem secretVersion hsec)⟩

/-- A two-record store used to instantiate hypotheses of store theorems. -/
def exampleStore : MemoryStore :=
  [⟨"a", "x", "v1", 420⟩, ⟨"b", "y", "v2", 384⟩]

/-- Witness for C2 at a concrete two-record store. -/
theorem c2_getFiles_aligned_witness :
    MemoryStore.NamesNodup exampleStore ∧
    ((exampleStore.getFiles).1.length = (exampleStore.getFiles).2.length ∧
    (∀ i (h1 : i < (exampleStore.getFiles).1.length)
        (h2 : i < (exampleStore.getFiles).2.length),
      ((exampleStore.getFiles).1.get ⟨i, h1⟩).path =
        ((exampleStore.getFiles).2.get ⟨i, h2⟩).id ∧
      ∃ sec ∈ exampleStore,
        (exampleStore.getFiles).1.get ⟨i, h1⟩ = secretFile sec ∧
        (exampleStore.getFiles).2.get ⟨i, h2⟩ = secretVersion sec) ∧
    (∀ sec ∈ exampleStore,
      (exampleStore.getFiles).1.count (secretFile sec) = 1 ∧
      (exampleStore.getFiles).2.count (secretVersion sec) = 1)) :=
  ⟨by decide, c2_getFiles_aligned exampleStore (by decide)⟩

theorem bulk_foldl_as_ops (items : List BulkItem) (st : MemoryStore) :
    items.foldl (fun acc i => acc.set i.name i.value i.version 420) st =
      (items.map (fun i => StoreOp.setOp i.name i.value i.version 420)).foldl
        applyOp st := by
  induction items generalizing st with
  | nil => rfl
  | cons i items ih => simp [List.foldl_cons, ih, applyOp]

theorem find_handleBulk (st : MemoryStore) (items : List BulkItem)
    (n : String) :
    ((handleBulk st "POST" (some items)).1).find n =
      items.foldl (fun acc i =>
        if i.name = n then some ⟨i.name, i.value, i.version, 420⟩ else acc)
        (st.find n) := by
  have hb : (handleBulk st "POST" (some items)).1 =
      items.foldl (fun acc i => acc.set i.name i.value i.version 420) st := by
    simp [handleBulk]
  rw [hb, bulk_foldl_as_ops, find_foldl_applyOp, List.foldl_map]
  rfl

/-- C5: a `POST /bulk` whose payload fails to parse answers 400 with the
store untouched; once parsing succeeds every triple is applied as one
independent `Set(name, value, version, 420)` in payload order and the
handler redirects to `/` — so the surviving record for each name is that
of the last triple with that name, if any. -/
theorem c5_bulk_parse_then_apply (st : MemoryStore) :
    handleBulk st "POST" none = (st, .httpError 400 "Invalid JSON") ∧
    (∀ items : List BulkItem,
      handleBulk st "POST" (some items) =
        ((items.map (fun i => StoreOp.setOp i.name i.value i.version 420)).foldl
          applyOp st, .redirect 303 "/")) ∧
    (∀ (items : List BulkItem) (n : String),
      ((handleBulk st "POST" (some items)).1).find n =
        items.foldl (fun acc i =>
          if i.name = n then some ⟨i.name, i.value, i.version, 420⟩ else acc)
          (st.find n)) := by
  refine ⟨by simp [handleBulk], fun items => ?_,
    fun items n => find_handleBulk st items n⟩
  simp [handleBulk, bulk_foldl_as_ops]

/-- C6: `POST /update` with an empty `name` or empty `value` field
answers a 400 and leaves the store — hence `List()` — unchanged. -/
theorem c6_update_empty_rejected (st : MemoryStore) (pOk : Bool)
    (form : String → String)
    (h : form "name" = "" ∨ form "value" = "") :
    (handleUpdate st "POST" pOk form).1 = st ∧
    (∃ msg, (handleUpdate st "POST" pOk form).2 = .httpError 400 msg) ∧
    (handleUpdate st "POST" pOk form).1.list = st.list := by
  have hh : handleUpdate st "POST" pOk form = (st,
      if pOk then HttpResponse.httpError 400 "Name and Value required"
      else HttpResponse.httpError 400 "Bad request") := by
    rcases h with h | h <;> cases pOk <;> simp [handleUpdate, h]
  rw [hh]
  exact ⟨rfl,
    ⟨if pOk then "Name and Value required" else "Bad request",
     by cases pOk <;> simp⟩, rfl⟩

/-- Witness for C6: the all-empty form on the empty store. -/
theorem c6_update_empty_rejected_witness :
    ((fun _ : String => "") "name" = "" ∨
      (fun _ : String => "") "value" = "") ∧
    ((handleUpdate [] "POST" true (fun _ => "")).1 = [] ∧
     (∃ msg, (handleUpdate [] "POST" true (fun _ => "")).2 =
        .httpError 400 msg) ∧
     (handleUpdate [] "POST" true (fun _ => "")).1.list =
        MemoryStore.list []) :=
  ⟨Or.inl rfl, c6_update_empty_rejected [] true (fun _ => "") (Or.inl rfl)⟩

/-- A store holding one record whose name is the empty string (creatable
through `POST /bulk`, which does not validate names). -/
def emptyNameStore : MemoryStore := [⟨"", "v", "ver1", 420⟩]

/-- C7 counterexample: `POST /delete` with an empty `name` field is not
rejected — the handler always reaches the store's `Delete` and redirects;
on a store holding a record named `""` the store is in fact mutated. -/
theorem c7_counterexample :
    (handleDelete emptyNameStore "POST" (fun _ => "")).1 ≠ emptyNameStore ∧
    (handleDelete emptyNameStore "POST" (fun _ => "")).2 =
      .redirect 303 "/" := by
  decide

/-- C7 amended: `POST /delete` performs no name validation — for every
form it invokes the store's `Delete` with the (possibly empty) submitted
`name` and redirects to `/`; the store is left unmodified exactly because
of the store-level no-op-on-absent, i.e. whenever no record carries the
submitted name. -/
theorem c7_amended_delete_no_validation (st : MemoryStore)
    (form : String → String) :
    handleDelete st "POST" form =
      (st.delete (form "name"), .redirect 303 "/") ∧
    (st.find (form "name") = none → (handleDelete st "POST" form).1 = st) := by
  refine ⟨by simp [handleDelete], fun hf => ?_⟩
  have h1 : (handleDelete st "POST" form).1 = st.delete (form "name") := by
    simp [handleDelete]
  rw [h1, MemoryStore.delete]
  apply List.filter_eq_self.mpr
  intro a ha
  rw [MemoryStore.find] at hf
  have h2 := List.find?_eq_none.mp hf a ha
  simpa using h2

/-- Witness for the amended C7 at the empty store and empty form. -/
theorem c7_amended_delete_no_validation_witness :
    handleDelete [] "POST" (fun _ => "") =
      (MemoryStore.delete [] "", .redirect 303 "/") ∧
    MemoryStore.find [] "" = none ∧
    (handleDelete [] "POST" (fun _ => "")).1 = [] :=
  ⟨(c7_amended_delete_no_validation [] (fun _ => "")).1, rfl,
   (c7_amended_delete_no_validation [] (fun _ => "")).2 rfl⟩

theorem handleUpdate_mode_not_read (st : MemoryStore) (method : String)
    (pOk : Bool) (form1 form2 : String → String)
    (hagree : ∀ k, k ≠ "mode" → form1 k = form2 k) :
    handleUpdate st method pOk form1 = handleUpdate st method pOk form2 := by
  have h1 : form1 "name" = form2 "name" := hagree _ (by decide)
  have h2 : form1 "value" = form2 "value" := hagree _ (by decide)
  have h3 : form1 "version" = form2 "version" := hagree _ (by decide)
  simp [handleUpdate, h1, h2, h3]

/-- C9: `POST /update` never reads the `mode` form field — two forms that
agree on every field but `mode` are handled identically — and a
successful request stores the record for the submitted name with mode
exactly the constant 420. -/
theorem c9_update_mode_always_420 (st : MemoryStore) (pOk : Bool)
    (form1 form2 : String → String)
    (hagree : ∀ k, k ≠ "mode" → form1 k = form2 k)
    (hname : ¬ form1 "name" = "") (hvalue : ¬ form1 "value" = "")
    (hpOk : pOk = true) :
    handleUpdate st "POST" pOk form1 = handleUpdate st "POST" pOk form2 ∧
    (handleUpdate st "POST" pOk form1).1.find (form1 "name") =
      some ⟨form1 "name", form1 "value", form1 "version", 420⟩ := by
  subst hpOk
  refine ⟨handleUpdate_mode_not_read st "POST" true form1 form2 hagree, ?_⟩
  have h1 : (handleUpdate st "POST" true form1).1 =
      st.set (form1 "name") (form1 "value") (form1 "version") 420 := by
    simp [handleUpdate, hname, hvalue]
  rw [h1, MemoryStore.find_set]
  simp

/-- Witness for C9: two concrete forms differing only in `mode`
("0755" against "999"); the update succeeds and stores mode 420. -/
theorem c9_update_mode_always_420_witness :
    handleUpdate [] "POST" true
        (fun q => if q = "mode" then "0755" else "x") =
      handleUpdate [] "POST" true
        (fun q => if q = "mode" then "999" else "x") ∧
    (handleUpdate [] "POST" true
        (fun q => if q = "mode" then "0755" else "x")).1.find "x" =
      some ⟨"x", "x", "x", 420⟩ := by
  have h := c9_update_mode_always_420 [] true
      (fun q => if q = "mode" then "0755" else "x")
      (fun q => if q = "mode" then "999" else "x")
      (fun k hk => by simp [hk]) (by decide) (by decide) rfl
  exact ⟨h.1, by simpa using h.2⟩

/-- C10: `POST /bulk` applies parsed triples without any emptiness
validation — a triple whose name is the empty string still reaches the
store's `Set`, creating or overwriting the record keyed by `""` — while
`POST /update` with an empty name answers a 400 without mutating the
store. -/
theorem c10_bulk_no_emptiness_validation (st : MemoryStore)
    (v ver : String) :
    (handleBulk st "POST" (some [⟨"", v, ver⟩])).1 = st.set "" v ver 420 ∧
    (handleBulk st "POST" (some [⟨"", v, ver⟩])).2 = .redirect 303 "/" ∧
    (handleBulk st "POST" (some [⟨"", v, ver⟩])).1.find "" =
      some ⟨"", v, ver, 420⟩ ∧
    handleUpdate st "POST" true (fun k => if k = "name" then "" else v) =
      (st, .httpError 400 "Name and Value required") := by
  have hb : handleBulk st "POST" (some [⟨"", v, ver⟩]) =
      (st.set "" v ver 420, .redirect 303 "/") := by
    simp [handleBulk]
  refine ⟨by rw [hb], by rw [hb], ?_, by simp [handleUpdate]⟩
  rw [hb]
  show (st.set "" v ver 420).find "" = _
  rw [MemoryStore.find_set]
  simp
